import Mathlib

/-!
Shallow embedding of `pulsar/table_view_impl.go` (TableViewImpl) and proofs
about the claims of its specification.

Modelling conventions:
* The Go `map[string]interface{}` state store is represented as an association
  list `List (String × V)` whose insert replaces the binding for an existing
  key, giving the same finite-map semantics (Go map iteration order is
  unspecified, so the representation order is a free choice of the model).
* The dynamically-typed decoded payload (`reflect.New(tv.options.SchemaValueType)`
  followed by `msg.GetSchemaValue`) is modelled by an arbitrary type `V`, a
  designated `zero : V` (the zero value produced by `reflect.New`) and a
  `decode : List Nat → Except String V` function (`GetSchemaValue`), where a
  payload is a byte list `List Nat`.
* A Go `interface{}` handed to a listener is never the nil interface in this
  code, so a delivered value is modelled as `Option V` with the code always
  producing `some _`; `none` stands for the nil/absent interface value.
-/

namespace TableView

/-- An inbound message: routing key plus raw payload bytes.
A tombstone is a message whose payload is empty (`msg.Payload()` length 0). -/
structure Msg where
  key : String
  payload : List Nat
deriving DecidableEq, Repr

/-- Lookup in the state store: `tv.data[key]`, `none` when the key is absent. -/
def mapLookup {V : Type} (m : List (String × V)) (k : String) : Option V :=
  (m.find? (fun p => p.1 = k)).map (fun p => p.2)

/-- Deletion from the state store: `delete(tv.data, key)`. -/
def mapDelete {V : Type} (m : List (String × V)) (k : String) : List (String × V) :=
  m.filter (fun p => decide (p.1 ≠ k))

/-- Map assignment `tv.data[key] = value`: the binding for `k` is replaced. -/
def mapInsert {V : Type} (m : List (String × V)) (k : String) (v : V) :
    List (String × V) :=
  (k, v) :: mapDelete m k

/-- `len(tv.data)`. -/
def mapSize {V : Type} (m : List (String × V)) : Nat := m.length

/-- The value held by the local variable `payload` at line 261 of the source
when the listeners are invoked: `reflect.New` produces `zero`; for a
non-tombstone message `GetSchemaValue` overwrites it with the decoded value,
and on decode failure the error is only logged, leaving `zero` in place. -/
def handleValue {V : Type} (decode : List Nat → Except String V) (zero : V)
    (msg : Msg) : V :=
  if msg.payload = [] then zero
  else match decode msg.payload with
    | .ok v => v
    | .error _ => zero

/-- The state-store mutation of `handleMessage` (source lines 250–258): a
tombstone deletes the key; otherwise the key is mapped to the decoded value,
or to the zero value when decoding fails (the decode error is only logged,
`handleMessage` has no error return). -/
def applyData {V : Type} (decode : List Nat → Except String V) (zero : V)
    (data : List (String × V)) (msg : Msg) : List (String × V) :=
  if msg.payload = [] then mapDelete data msg.key
  else mapInsert data msg.key (handleValue decode zero msg)

/-- The value passed to every listener by `handleMessage` (source line 261):
`reflect.Indirect(payload).Interface()`, which is always a concrete value of
the target type (never the nil interface), hence always `some _`. -/
def notifiedValue {V : Type} (decode : List Nat → Except String V) (zero : V)
    (msg : Msg) : Option V :=
  some (handleValue decode zero msg)

/-- `handleMessage` (source lines 246–265): mutates the state store and
synchronously notifies each of the `n` registered listeners with
`(msg.Key(), reflect.Indirect(payload).Interface())`; listener errors are only
logged, so each listener receives exactly one event. Returns the new store and
the per-listener events. -/
def handleMessage {V : Type} (decode : List Nat → Except String V) (zero : V)
    (data : List (String × V)) (nListeners : Nat) (msg : Msg) :
    List (String × V) × List (String × Option V) :=
  (applyData decode zero data msg,
   List.replicate nListeners (msg.key, notifiedValue decode zero msg))

/- Basic lemmas about the store operations. -/

theorem mapLookup_nil {V : Type} (k : String) :
    mapLookup ([] : List (String × V)) k = none := rfl

theorem mapLookup_cons {V : Type} (p : String × V) (t : List (String × V))
    (k : String) :
    mapLookup (p :: t) k = if p.1 = k then some p.2 else mapLookup t k := by
  by_cases h : p.1 = k <;> simp [mapLookup, List.find?, h]

theorem mapDelete_cons {V : Type} (p : String × V) (t : List (String × V))
    (k : String) :
    mapDelete (p :: t) k = if p.1 = k then mapDelete t k else p :: mapDelete t k := by
  by_cases h : p.1 = k <;> simp [mapDelete, List.filter, h]

theorem mapLookup_mapDelete_ne {V : Type} (m : List (String × V)) {k k' : String}
    (h : k ≠ k') : mapLookup (mapDelete m k') k = mapLookup m k := by
  induction m with
  | nil => rfl
  | cons p t ih =>
    rw [mapDelete_cons, mapLookup_cons]
    by_cases hp : p.1 = k'
    · have hk : ¬ p.1 = k := fun hc => h (hc ▸ hp)
      rw [if_pos hp, if_neg hk, ih]
    · rw [if_neg hp, mapLookup_cons]
      by_cases hk : p.1 = k
      · simp [hk]
      · simp [hk, ih]

theorem mapLookup_mapDelete_self {V : Type} (m : List (String × V)) (k : String) :
    mapLookup (mapDelete m k) k = none := by
  induction m with
  | nil => rfl
  | cons p t ih =>
    rw [mapDelete_cons]
    by_cases hp : p.1 = k
    · simp [hp, ih]
    · rw [if_neg hp, mapLookup_cons, if_neg hp]
      exact ih

theorem mapLookup_mapInsert_self {V : Type} (m : List (String × V)) (k : String)
    (v : V) : mapLookup (mapInsert m k v) k = some v := by
  rw [mapInsert, mapLookup_cons]
  simp

theorem mapLookup_mapInsert_ne {V : Type} (m : List (String × V)) {k k' : String}
    (v : V) (h : k ≠ k') : mapLookup (mapInsert m k' v) k = mapLookup m k := by
  rw [mapInsert, mapLookup_cons, if_neg (fun hc => h ((rfl : (k', v).1 = k') ▸ hc).symm)]
  exact mapLookup_mapDelete_ne m h

/-! ## Reader registry and `partitionUpdateCheck` (source lines 93–146)

The Go function mutates `tv` in place and returns an `error`; registrations
made before an abort are kept (there is no rollback), so the model returns the
final state together with the optional error. Go map iteration order is
unspecified; the model fixes the iteration over `partitions` to the order of
the `partitionsArray` list returned by `TopicPartitions`. -/

/-- The external collaborators one `partitionUpdateCheck` call interacts with:
the outcome of `newReader` for each partition, and the partition's compacted
backlog as seen by the `HasNext`/`Next` drain loop — each iteration yields
either a `Next` error (with a nil message) or a message. -/
structure Env where
  openResult : String → Except String Unit
  backlog : String → List (Except String Msg)

/-- The fields of `TableViewImpl` that `partitionUpdateCheck` touches: the
state store `data` and the domain of the `cancelReaders` registry. -/
structure RegState (V : Type) where
  data : List (String × V)
  readers : List String
deriving DecidableEq, Repr

/-- Result of one `partitionUpdateCheck` call: final state, the partitions for
which a new reader was opened, the partitions whose entry was cancelled,
closed and removed, and the returned error if any. -/
structure PUCOut (V : Type) where
  state : RegState V
  opened : List String
  removed : List String
  err : Option String
deriving DecidableEq, Repr

/-- The synchronous drain loop (source lines 127–135): `for reader.HasNext()`,
each `reader.Next` either fails — the error is only logged and the loop
continues — or yields a message handed to `handleMessage`. -/
def drain {V : Type} (decode : List Nat → Except String V) (zero : V)
    (items : List (Except String Msg)) (data : List (String × V)) :
    List (String × V) :=
  items.foldl (fun d it => match it with
    | .error _ => d
    | .ok msg => applyData decode zero d msg) data

/-- The removal loop (source lines 107–113): every registered partition absent
from the current partition set has its `cancelFunc` invoked, its reader closed,
and its entry deleted; the second component records those partitions. -/
def removeLoop {V : Type} (parts : List String) (s : RegState V) :
    RegState V × List String :=
  (⟨s.data, s.readers.filter (fun r => decide (r ∈ parts))⟩,
   s.readers.filter (fun r => decide (r ∉ parts)))

/-- The addition loop (source lines 115–143): for each current partition not
yet registered, open a reader — a `newReader` failure returns that error,
aborting the loop with the registrations made so far kept — then drain its
backlog into the store, register the entry and start its tailing goroutine.
Accumulates the list of partitions for which a reader was opened. -/
def addLoop {V : Type} (decode : List Nat → Except String V) (zero : V)
    (env : Env) : List String → RegState V → List String →
    RegState V × List String × Option String
  | [], s, opened => (s, opened, none)
  | p :: ps, s, opened =>
    if p ∈ s.readers then addLoop decode zero env ps s opened
    else match env.openResult p with
      | .error e => (s, opened, some e)
      | .ok _ =>
        addLoop decode zero env ps
          ⟨drain decode zero (env.backlog p) s.data, s.readers ++ [p]⟩
          (opened ++ [p])

/-- `partitionUpdateCheck` (source lines 93–146): fetch the topic's partitions
(failure returns that error at once), then run the removal loop and the
addition loop. -/
def partitionUpdateCheck {V : Type} (decode : List Nat → Except String V)
    (zero : V) (env : Env) (partsRes : Except String (List String))
    (s : RegState V) : PUCOut V :=
  match partsRes with
  | .error e => ⟨s, [], [], some e⟩
  | .ok parts =>
    let rm := removeLoop parts s
    let ad := addLoop decode zero env parts rm.1 []
    ⟨ad.1, ad.2.1, rm.2, ad.2.2⟩

/- Lemmas about `addLoop`. -/

theorem addLoop_reader_mono {V : Type} (decode : List Nat → Except String V)
    (zero : V) (env : Env) (ps : List String) (s : RegState V)
    (o : List String) {r : String} (hr : r ∈ s.readers) :
    r ∈ (addLoop decode zero env ps s o).1.readers := by
  induction ps generalizing s o with
  | nil => simpa [addLoop] using hr
  | cons p ps ih =>
    rw [addLoop]
    by_cases hmem : p ∈ s.readers
    · rw [if_pos hmem]; exact ih s o hr
    · rw [if_neg hmem]
      cases hop : env.openResult p with
      | error e => simpa using hr
      | ok u =>
        exact ih _ _ (by simp [hr])

theorem addLoop_opened_subset {V : Type} (decode : List Nat → Except String V)
    (zero : V) (env : Env) (ps : List String) (s : RegState V)
    (o : List String) (ho : ∀ x ∈ o, x ∈ s.readers) :
    ∀ x ∈ (addLoop decode zero env ps s o).2.1,
      x ∈ (addLoop decode zero env ps s o).1.readers := by
  induction ps generalizing s o with
  | nil =>
    simpa [addLoop] using ho
  | cons p ps ih =>
    rw [addLoop]
    by_cases hmem : p ∈ s.readers
    · rw [if_pos hmem]; exact ih s o ho
    · rw [if_neg hmem]
      cases hop : env.openResult p with
      | error e => simpa using ho
      | ok u =>
        refine ih _ _ ?_
        intro x hx
        rcases List.mem_append.1 hx with hx | hx
        · simp [ho x hx]
        · simp [List.mem_singleton.1 hx]

theorem addLoop_err_none_iff {V : Type} (decode : List Nat → Except String V)
    (zero : V) (env : Env) (ps : List String) (s : RegState V)
    (o : List String) :
    (addLoop decode zero env ps s o).2.2 = none ↔
      ∀ p ∈ ps, p ∉ s.readers → env.openResult p = .ok () := by
  induction ps generalizing s o with
  | nil => simp [addLoop]
  | cons p ps ih =>
    rw [addLoop]
    by_cases hmem : p ∈ s.readers
    · rw [if_pos hmem, ih]
      constructor
      · intro h q hq hqr
        rcases List.mem_cons.1 hq with rfl | hq
        · exact absurd hmem hqr
        · exact h q hq hqr
      · intro h q hq hqr
        exact h q (List.mem_cons_of_mem _ hq) hqr
    · rw [if_neg hmem]
      cases hop : env.openResult p with
      | error e =>
        simp only
        constructor
        · intro h; exact absurd h (by simp)
        · intro h
          have := h p (List.mem_cons_self _ _) hmem
          rw [hop] at this
          exact absurd this (by simp)
      | ok u =>
        cases u
        rw [ih]
        constructor
        · intro h q hq hqr
          rcases List.mem_cons.1 hq with rfl | hq
          · exact hop
          · by_cases hqp : q = p
            · exact hqp ▸ hop
            · exact h q hq (by simp [hqr, hqp])
        · intro h q hq hqr
          have hqr' : q ∉ s.readers := fun hc => hqr (by simp [hc])
          exact h q (List.mem_cons_of_mem _ hq) hqr'

theorem addLoop_all_present {V : Type} (decode : List Nat → Except String V)
    (zero : V) (env : Env) (ps : List String) (s : RegState V)
    (o : List String) (h : ∀ p ∈ ps, p ∈ s.readers) :
    addLoop decode zero env ps s o = (s, o, none) := by
  induction ps with
  | nil => rfl
  | cons p ps ih =>
    rw [addLoop, if_pos (h p (List.mem_cons_self _ _))]
    exact ih (fun q hq => h q (List.mem_cons_of_mem _ hq))

theorem addLoop_covers {V : Type} (decode : List Nat → Except String V)
    (zero : V) (env : Env) (ps : List String) (s : RegState V)
    (o : List String) (herr : (addLoop decode zero env ps s o).2.2 = none) :
    ∀ p ∈ ps, p ∈ (addLoop decode zero env ps s o).1.readers := by
  induction ps generalizing s o with
  | nil => simp
  | cons p ps ih =>
    rw [addLoop] at herr ⊢
    by_cases hmem : p ∈ s.readers
    · rw [if_pos hmem] at herr ⊢
      intro q hq
      rcases List.mem_cons.1 hq with rfl | hq
      · exact addLoop_reader_mono decode zero env ps s o hmem
      · exact ih s o herr q hq
    · rw [if_neg hmem] at herr ⊢
      cases hop : env.openResult p with
      | error e =>
        rw [hop] at herr
        exact Option.noConfusion herr
      | ok u =>
        rw [hop] at herr
        intro q hq
        rcases List.mem_cons.1 hq with rfl | hq
        · exact addLoop_reader_mono decode zero env ps _ _ (by simp)
        · exact ih _ _ herr q hq

theorem addLoop_readers_origin {V : Type} (decode : List Nat → Except String V)
    (zero : V) (env : Env) (ps : List String) (s : RegState V)
    (o : List String) :
    ∀ r ∈ (addLoop decode zero env ps s o).1.readers,
      r ∈ s.readers ∨ r ∈ ps := by
  induction ps generalizing s o with
  | nil => intro r hr; exact Or.inl (by simpa [addLoop] using hr)
  | cons p ps ih =>
    rw [addLoop]
    by_cases hmem : p ∈ s.readers
    · rw [if_pos hmem]
      intro r hr
      rcases ih s o r hr with h | h
      · exact Or.inl h
      · exact Or.inr (List.mem_cons_of_mem _ h)
    · rw [if_neg hmem]
      cases hop : env.openResult p with
      | error e => intro r hr; exact Or.inl (by simpa using hr)
      | ok u =>
        intro r hr
        rcases ih _ _ r hr with h | h
        · rcases List.mem_append.1 h with h | h
          · exact Or.inl h
          · exact Or.inr (by simp [List.mem_singleton.1 h])
        · exact Or.inr (List.mem_cons_of_mem _ h)

/-! ## Facade reads -/

/-- `Get` (source lines 182–186): `tv.data[key]` under `dataMu`; the nil
interface (`none`) when the key is absent. -/
def GetCall {V : Type} (data : List (String × V)) (k : String) : Option V :=
  mapLookup data k

/-! ## Lock model for `Size` and `IsEmpty` (source lines 163–173)

A Go `sync.Mutex` is not reentrant: `Lock()` on a mutex the calling goroutine
already holds blocks, and with nothing left to unlock it the call blocks
forever — modelled as `none`. The `held` argument says whether `dataMu` is
already held by the calling goroutine when the method starts. -/

def acquire (held : Bool) : Option Unit := if held then none else some ()

/-- `Size` (source lines 163–167): lock `dataMu`, return `len(tv.data)`,
deferred unlock on return. -/
def SizeCall {V : Type} (data : List (String × V)) (held : Bool) : Option Nat :=
  (acquire held).map (fun _ => mapSize data)

/-- `IsEmpty` (source lines 169–173): lock `dataMu`, then — still holding it —
call `tv.Size()`, which locks `dataMu` again. -/
def IsEmptyCall {V : Type} (data : List (String × V)) (held : Bool) :
    Option Bool :=
  (acquire held).bind (fun _ => (SizeCall data true).map (fun n => n == 0))

/-! ## Object-identity model for `Entries` (source lines 188–196)

`Entries` must be modelled with object identity, since the claim is about
aliasing between the returned map and the internal one. A heap of map objects
is a list indexed by address; `dataRef` is the address `tv.data` points at. -/

structure Heap (V : Type) where
  objs : List (List (String × V))
  dataRef : Nat
deriving DecidableEq, Repr

/-- Dereference an address. -/
def readAddr {V : Type} (h : Heap V) (a : Nat) : List (String × V) :=
  h.objs.getD a []

/-- `Entries` (source lines 188–196): under `dataMu`, allocate a fresh map
object, copy every entry of `tv.data` into it — and then return `tv.data`
itself: line 195 is `return tv.data`, not `return data`. The result is the
heap after the allocation and the address of the returned map. -/
def EntriesCall {V : Type} (h : Heap V) : Heap V × Nat :=
  (⟨h.objs ++ [readAddr h h.dataRef], h.dataRef⟩, h.dataRef)

/-- `handleMessage`'s store mutation acting on the heap: `tv.data` is updated
in place at its address. -/
def applyHeap {V : Type} (decode : List Nat → Except String V) (zero : V)
    (h : Heap V) (msg : Msg) : Heap V :=
  ⟨h.objs.set h.dataRef (applyData decode zero (readAddr h h.dataRef) msg),
   h.dataRef⟩

/-! ## `Close` (source lines 233–244) -/

/-- Per-`cancelReader` teardown flags: whether its `cancelFunc` was invoked and
whether `reader.Close()` was called. -/
structure EntryState where
  cancelInvoked : Bool
  readerClosed : Bool
deriving DecidableEq, Repr

/-- The fields `Close` touches: the `closed` flag, whether `closedCh` was
closed (which makes `periodicPartitionUpdateCheck` return at its next
`select`, stopping the watcher), and the registry entries' teardown flags. -/
structure CloseView where
  closed : Bool
  watcherStopped : Bool
  entries : List (String × EntryState)
deriving DecidableEq, Repr

/-- `Close` (source lines 233–244): under `readersMu`, if not yet closed: set
`closed`, call `reader.Close()` on every registry entry — the loop body never
invokes the entry's `cancelFunc` — and close `closedCh`. When already closed,
return with no effect. -/
def CloseCall (s : CloseView) : CloseView :=
  if s.closed then s
  else ⟨true, true,
        s.entries.map (fun e => (e.1, ⟨e.2.cancelInvoked, true⟩))⟩

/-! ## Interleaving model for `ForEachAndListen` vs `handleMessage`

`ForEachAndListen` (source lines 221–231) holds `listenersMu` for its whole
body; inside it, `ForEach` (lines 210–219) acquires and releases `dataMu`, and
only afterwards is `action` appended to `tv.listeners` (line 229, under
`listenersMu` but not `dataMu`). `handleMessage` (lines 246–265) acquires only
`dataMu` and reads `tv.listeners` (line 260) without acquiring `listenersMu`.
Consequently a whole `handleMessage` call may execute between the `ForEach`
snapshot and the listener registration. The atomic units, given by the locks
actually taken, are therefore: one `handleMessage` (`apply`), the snapshot
iteration (`snapshot`), and the listener append (`register`); `snapshot` and
`register` cannot be separated by another `ForEachAndListen` (both need
`listenersMu`) but can be separated by `apply` steps. -/

inductive FStep where
  | apply (msg : Msg)
  | snapshot
  | register
deriving DecidableEq, Repr

/-- State observed by one `ForEachAndListen(action)` call: the store, whether
`action` is registered in `tv.listeners` yet, and the events delivered to
`action` so far (by the snapshot or by `notify`). -/
structure ExecState (V : Type) where
  data : List (String × V)
  registered : Bool
  delivered : List (String × Option V)
deriving DecidableEq, Repr

/-- One atomic step. `apply` mutates the store and, when `action` is already
registered, delivers `(msg.Key(), payload value)` to it; `snapshot` delivers
every current entry to `action`; `register` appends `action` to the
listeners. -/
def stepRun {V : Type} (decode : List Nat → Except String V) (zero : V)
    (s : ExecState V) : FStep → ExecState V
  | .apply msg =>
    ⟨applyData decode zero s.data msg, s.registered,
     if s.registered then s.delivered ++ [(msg.key, notifiedValue decode zero msg)]
     else s.delivered⟩
  | .snapshot =>
    ⟨s.data, s.registered, s.delivered ++ s.data.map (fun p => (p.1, some p.2))⟩
  | .register => ⟨s.data, true, s.delivered⟩

/-- Run a trace of steps. -/
def runTrace {V : Type} (decode : List Nat → Except String V) (zero : V)
    (s : ExecState V) (tr : List FStep) : ExecState V :=
  tr.foldl (stepRun decode zero) s

def isApply : FStep → Bool
  | .apply _ => true
  | _ => false

/-- The steps of a trace fragment are all `handleMessage` calls. -/
def applyOnly (l : List FStep) : Prop := ∀ st ∈ l, isApply st = true

/-- A complete execution around one `ForEachAndListen` call: `apply` steps in
`pre` before the call, the snapshot, `apply` steps in `mid` racing between the
snapshot and the registration, the registration, and `apply` steps in `post`
after the call returned. -/
def fealTrace (pre mid post : List FStep) : List FStep :=
  pre ++ FStep.snapshot :: (mid ++ FStep.register :: post)

/-- The event an `apply` step delivers to a registered listener. -/
def stepNotifyEvent {V : Type} (decode : List Nat → Except String V) (zero : V) :
    FStep → Option (String × Option V)
  | .apply msg => some (msg.key, notifiedValue decode zero msg)
  | _ => none

theorem runTrace_nil {V : Type} (decode : List Nat → Except String V) (zero : V)
    (s : ExecState V) : runTrace decode zero s [] = s := rfl

theorem runTrace_cons {V : Type} (decode : List Nat → Except String V)
    (zero : V) (s : ExecState V) (st : FStep) (tl : List FStep) :
    runTrace decode zero s (st :: tl) =
      runTrace decode zero (stepRun decode zero s st) tl := rfl

theorem runTrace_append {V : Type} (decode : List Nat → Except String V)
    (zero : V) (s : ExecState V) (l₁ l₂ : List FStep) :
    runTrace decode zero s (l₁ ++ l₂) =
      runTrace decode zero (runTrace decode zero s l₁) l₂ := by
  simp [runTrace, List.foldl_append]

theorem runTrace_pre {V : Type} (decode : List Nat → Except String V)
    (zero : V) (pre : List FStep) (s : ExecState V)
    (hreg : s.registered = false) (hdel : s.delivered = [])
    (hpre : applyOnly pre) :
    (runTrace decode zero s pre).registered = false ∧
    (runTrace decode zero s pre).delivered = [] := by
  induction pre generalizing s with
  | nil => exact ⟨hreg, hdel⟩
  | cons st tl ih =>
    cases st with
    | apply m =>
      rw [runTrace_cons]
      exact ih _ (by simp [stepRun, hreg]) (by simp [stepRun, hreg, hdel])
        (fun x hx => hpre x (List.mem_cons_of_mem _ hx))
    | snapshot =>
      exact absurd (hpre _ (List.mem_cons_self _ _)) (by simp [isApply])
    | register =>
      exact absurd (hpre _ (List.mem_cons_self _ _)) (by simp [isApply])

theorem runTrace_post {V : Type} (decode : List Nat → Except String V)
    (zero : V) (post : List FStep) (s : ExecState V)
    (hreg : s.registered = true) (hpost : applyOnly post) :
    (runTrace decode zero s post).delivered =
      s.delivered ++ post.filterMap (stepNotifyEvent decode zero) := by
  induction post generalizing s with
  | nil => simp [runTrace]
  | cons st tl ih =>
    cases st with
    | apply m =>
      rw [runTrace_cons]
      rw [ih _ (by simp [stepRun, hreg])
        (fun x hx => hpost x (List.mem_cons_of_mem _ hx))]
      simp [stepRun, hreg, stepNotifyEvent, List.filterMap_cons]
    | snapshot =>
      exact absurd (hpost _ (List.mem_cons_self _ _)) (by simp [isApply])
    | register =>
      exact absurd (hpost _ (List.mem_cons_self _ _)) (by simp [isApply])

/-- Concrete decode used by witnesses and counterexamples: sums the payload
bytes. -/
def cDecode : List Nat → Except String Nat :=
  fun l => .ok (l.foldl (fun a b => a + b) 0)

/-- Decode that always fails, used to exercise the decode-failure path. -/
def cDecodeFail : List Nat → Except String Nat := fun _ => .error "decode failed"

/-- Persistence of a key under records none of which is a tombstone for it. -/
theorem lookup_isSome_after_no_tombstone {V : Type}
    (decode : List Nat → Except String V) (zero : V) (k : String)
    (msgs : List Msg) (d : List (String × V))
    (hmsgs : ∀ m ∈ msgs, m.key = k → m.payload ≠ [])
    (hd : (mapLookup d k).isSome = true) :
    (mapLookup (msgs.foldl (applyData decode zero) d) k).isSome = true := by
  induction msgs generalizing d with
  | nil => exact hd
  | cons m tl ih =>
    rw [List.foldl_cons]
    refine ih _ (fun x hx => hmsgs x (List.mem_cons_of_mem _ hx)) ?_
    rw [applyData]
    by_cases hp : m.payload = []
    · rw [if_pos hp]
      have hkm : m.key ≠ k := fun hc => hmsgs m (List.mem_cons_self _ _) hc hp
      rw [mapLookup_mapDelete_ne d (fun hc => hkm hc.symm)]
      exact hd
    · rw [if_neg hp]
      by_cases hkm : m.key = k
      · rw [hkm, mapLookup_mapInsert_self]; rfl
      · rw [mapLookup_mapInsert_ne _ _ (fun hc => hkm hc.symm)]
        exact hd

/-- C7: for every key `k` and every non-empty sequence of non-tombstone
records for `k` from one partition, after applying the records in order
(`handleMessage` preserves the partition's order), `Get(k)` returns the
decoded value of the last record applied. -/
theorem get_after_records_for_key {V : Type}
    (decode : List Nat → Except String V) (zero : V) (d : List (String × V))
    (k : String) (msgs : List Msg) (v : V) (hne : msgs ≠ [])
    (hk : ∀ m ∈ msgs, m.key = k ∧ m.payload ≠ [])
    (hv : decode (msgs.getLast hne).payload = .ok v) :
    GetCall (msgs.foldl (applyData decode zero) d) k = some v := by
  have hsplit : msgs.dropLast ++ [msgs.getLast hne] = msgs :=
    List.dropLast_append_getLast hne
  have hm := hk (msgs.getLast hne) (List.getLast_mem hne)
  conv_lhs => rw [← hsplit]
  rw [List.foldl_append, List.foldl_cons, List.foldl_nil]
  rw [applyData, if_neg hm.2, GetCall, hm.1, mapLookup_mapInsert_self]
  rw [handleValue, if_neg hm.2, hv]

/-- Witness for C7 at a concrete input. -/
theorem get_after_records_for_key_w :
    GetCall (([⟨"k", [1]⟩, ⟨"k", [2]⟩] : List Msg).foldl (applyData cDecode 0) []) "k" =
      some 2 :=
  get_after_records_for_key cDecode 0 [] "k" [⟨"k", [1]⟩, ⟨"k", [2]⟩] 2
    (by decide) (by decide) rfl

/-- C10: for every non-tombstone record whose payload fails to decode,
applying the record raises no error to the caller — `handleMessage`'s Go
signature has no error return, the decode failure is only logged — and the key
is mapped to the zero-valued instance of the configured target type, replacing
any prior value. -/
theorem decode_failure_inserts_zero {V : Type}
    (decode : List Nat → Except String V) (zero : V) (data : List (String × V))
    (msg : Msg) (e : String) (hp : msg.payload ≠ [])
    (hd : decode msg.payload = .error e) :
    applyData decode zero data msg = mapInsert data msg.key zero ∧
    GetCall (applyData decode zero data msg) msg.key = some zero := by
  have h1 : handleValue decode zero msg = zero := by
    rw [handleValue, if_neg hp, hd]
  refine ⟨by rw [applyData, if_neg hp, h1], ?_⟩
  rw [applyData, if_neg hp, h1, GetCall, mapLookup_mapInsert_self]

/-- Witness for C10 at a concrete input. -/
theorem decode_failure_inserts_zero_w :
    applyData cDecodeFail 0 [("k", 7)] ⟨"k", [1]⟩ = mapInsert [("k", 7)] "k" 0 ∧
    GetCall (applyData cDecodeFail 0 [("k", 7)] ⟨"k", [1]⟩) "k" = some 0 :=
  decode_failure_inserts_zero cDecodeFail 0 [("k", 7)] ⟨"k", [1]⟩ "decode failed"
    (by decide) rfl

/-- C5 counterexample: applying a tombstone for key `k` with one registered
listener removes `k` from the store, but the listener is notified with
`(k, some zero)` — the zero-valued instance left in `payload` by
`reflect.New` — not with `(k, absent)` as the claim states. -/
theorem tombstone_notifies_zero_value_cex :
    handleMessage cDecode 0 [("k", 5)] 1 ⟨"k", []⟩ = ([], [("k", some 0)]) ∧
    (("k", some 0) : String × Option Nat) ≠ ("k", none) := by decide

/-- C5 amended: for every tombstone record applied for key `k`, the key is
removed from the state store and every registered listener is notified with
`(k, z)` where `z` is the zero-valued instance of the configured target type
(never the absent value). -/
theorem tombstone_notify_zero_amended {V : Type}
    (decode : List Nat → Except String V) (zero : V) (data : List (String × V))
    (n : Nat) (msg : Msg) (ht : msg.payload = []) :
    handleMessage decode zero data n msg =
      (mapDelete data msg.key, List.replicate n (msg.key, some zero)) := by
  rw [handleMessage, applyData, if_pos ht, notifiedValue, handleValue, if_pos ht]

/-- Witness for the amended C5 at a concrete input. -/
theorem tombstone_notify_zero_amended_w :
    handleMessage cDecode 0 [("k", 5)] 2 ⟨"k", []⟩ =
      ([], [("k", some 0), ("k", some 0)]) :=
  (tombstone_notify_zero_amended cDecode 0 [("k", 5)] 2 ⟨"k", []⟩ rfl).trans
    (by decide)

/-- C3: the claim says every `IsEmpty()` call terminates and returns
`Size() == 0`. In the code `IsEmpty` locks `dataMu` and then calls `tv.Size()`,
which locks the same non-reentrant mutex: the inner `Lock()` blocks forever
and the call never returns (`none`), for every store contents — while a direct
`Size()` call from an unlocked state does return. -/
theorem isEmpty_deadlocks {V : Type} (data : List (String × V)) :
    IsEmptyCall data false = none ∧ SizeCall data false = some (mapSize data) :=
  ⟨rfl, rfl⟩

/-- C2: the claim says `Entries()` returns an independent copy. In the code
`Entries` builds a copy but line 195 returns `tv.data` itself: starting from an
empty store, the map returned by `Entries` is empty at call time, yet after a
later record is applied the same returned map contains the new key — the
caller observes the mutation through the alias. -/
theorem entries_returns_internal_map_cex :
    (EntriesCall (⟨[[]], 0⟩ : Heap Nat)).2 = 0 ∧
    readAddr (EntriesCall (⟨[[]], 0⟩ : Heap Nat)).1 0 = [] ∧
    readAddr (applyHeap cDecode 0 (EntriesCall (⟨[[]], 0⟩ : Heap Nat)).1
      ⟨"a", [1]⟩) 0 = [("a", 1)] := by decide

/-- `partitionUpdateCheck` on a successfully fetched partition list, written
out as the removal loop followed by the addition loop. -/
theorem partitionUpdateCheck_ok {V : Type} (decode : List Nat → Except String V)
    (zero : V) (env : Env) (parts : List String) (s : RegState V) :
    partitionUpdateCheck decode zero env (.ok parts) s =
      ⟨(addLoop decode zero env parts (removeLoop parts s).1 []).1,
       (addLoop decode zero env parts (removeLoop parts s).1 []).2.1,
       (removeLoop parts s).2,
       (addLoop decode zero env parts (removeLoop parts s).1 []).2.2⟩ := rfl

/-- Environment in which every reader opens fine but the first drain fetch
fails; used as concrete input by counterexamples and witnesses. -/
def cEnvDrainErr : Env :=
  ⟨fun _ => .ok (), fun _ => [.error "read next message failed", .ok ⟨"a", [5]⟩]⟩

/-- C4 counterexample: for a newly discovered partition `p0` whose synchronous
drain hits a fetch-next error, `partitionUpdateCheck` does not abort: the
error is only logged (source lines 129–131), draining continues with the next
backlog item, and the call returns no error with `p0` registered — the claim
says the reconcile call aborts and returns an error. -/
theorem reconcile_drain_error_no_abort_cex :
    partitionUpdateCheck cDecode 0 cEnvDrainErr (.ok ["p0"])
        (⟨[], []⟩ : RegState Nat) =
      ⟨⟨[("a", 5)], ["p0"]⟩, ["p0"], [], none⟩ := by decide

/-- C4 amended: `partitionUpdateCheck` returns an error iff opening the
reader of some newly discovered partition fails — a fetch-next error while
draining the compacted backlog is only logged and never aborts — and every
entry reconciled by the call (reader opened) remains registered when it
returns, aborted or not. -/
theorem reconcile_abort_iff_open_failure {V : Type}
    (decode : List Nat → Except String V) (zero : V) (env : Env)
    (parts : List String) (s : RegState V) :
    ((partitionUpdateCheck decode zero env (.ok parts) s).err = none ↔
      ∀ p ∈ parts, p ∉ s.readers → env.openResult p = .ok ()) ∧
    ∀ p ∈ (partitionUpdateCheck decode zero env (.ok parts) s).opened,
      p ∈ (partitionUpdateCheck decode zero env (.ok parts) s).state.readers := by
  rw [partitionUpdateCheck_ok]
  refine ⟨?_, addLoop_opened_subset decode zero env parts _ [] (by simp)⟩
  rw [addLoop_err_none_iff]
  simp only [removeLoop]
  constructor
  · intro h p hp hps
    refine h p hp (fun hc => hps ?_)
    exact (List.mem_filter.1 hc).1
  · intro h p hp hrm
    refine h p hp (fun hc => hrm ?_)
    exact List.mem_filter.2 ⟨hc, by simp [hp]⟩

/-- Witness for the amended C4 at a concrete input. -/
theorem reconcile_abort_iff_open_failure_w :
    (partitionUpdateCheck cDecode 0 cEnvDrainErr (.ok ["p0"])
      (⟨[], []⟩ : RegState Nat)).err = none ∧
    "p0" ∈ (partitionUpdateCheck cDecode 0 cEnvDrainErr (.ok ["p0"])
      (⟨[], []⟩ : RegState Nat)).state.readers :=
  ⟨(reconcile_abort_iff_open_failure cDecode 0 cEnvDrainErr ["p0"] ⟨[], []⟩).1.mpr
      (by intro p hp hn; rfl),
   (reconcile_abort_iff_open_failure cDecode 0 cEnvDrainErr ["p0"] ⟨[], []⟩).2 "p0"
      (by decide)⟩

/-- C8: reconcile is idempotent: when a `partitionUpdateCheck` call with
partition set `parts` succeeded, running it again with the same partition set
and environment leaves the registry contents (readers and store) unchanged,
opens no new reader (`opened = []`), removes nothing and returns no error. -/
theorem reconcile_idempotent {V : Type} (decode : List Nat → Except String V)
    (zero : V) (env : Env) (parts : List String) (s : RegState V)
    (hok : (partitionUpdateCheck decode zero env (.ok parts) s).err = none) :
    partitionUpdateCheck decode zero env (.ok parts)
        (partitionUpdateCheck decode zero env (.ok parts) s).state =
      ⟨(partitionUpdateCheck decode zero env (.ok parts) s).state, [], [], none⟩ := by
  have hok' : (addLoop decode zero env parts (removeLoop parts s).1 []).2.2 = none :=
    hok
  have hcov : ∀ p ∈ parts,
      p ∈ (partitionUpdateCheck decode zero env (.ok parts) s).state.readers :=
    addLoop_covers decode zero env parts _ [] hok'
  have hsub : ∀ r ∈ (partitionUpdateCheck decode zero env
      (.ok parts) s).state.readers, r ∈ parts := by
    intro r hr
    rcases addLoop_readers_origin decode zero env parts (removeLoop parts s).1 []
      r hr with h | h
    · simp only [removeLoop] at h
      exact of_decide_eq_true (List.mem_filter.1 h).2
    · exact h
  have hf : (partitionUpdateCheck decode zero env
        (.ok parts) s).state.readers.filter (fun r => decide (r ∈ parts)) =
      (partitionUpdateCheck decode zero env (.ok parts) s).state.readers :=
    List.filter_eq_self.mpr (fun a ha => by simp [hsub a ha])
  have hf2 : (partitionUpdateCheck decode zero env
        (.ok parts) s).state.readers.filter (fun r => decide (r ∉ parts)) = [] :=
    List.filter_eq_nil_iff.mpr (fun a ha => by simp [hsub a ha])
  have hrm : removeLoop parts (partitionUpdateCheck decode zero env
        (.ok parts) s).state =
      ((partitionUpdateCheck decode zero env (.ok parts) s).state, []) := by
    rw [removeLoop, hf, hf2]
  have hadd : addLoop decode zero env parts
      (partitionUpdateCheck decode zero env (.ok parts) s).state [] =
      ((partitionUpdateCheck decode zero env (.ok parts) s).state, [], none) :=
    addLoop_all_present decode zero env parts _ [] hcov
  rw [partitionUpdateCheck_ok decode zero env parts
    (partitionUpdateCheck decode zero env (.ok parts) s).state, hrm]
  dsimp only
  rw [hadd]

/-- Witness for C8 at a concrete input. -/
theorem reconcile_idempotent_w :
    partitionUpdateCheck cDecode 0 cEnvDrainErr (.ok ["p0"])
        (partitionUpdateCheck cDecode 0 cEnvDrainErr (.ok ["p0"])
          (⟨[], []⟩ : RegState Nat)).state =
      ⟨(partitionUpdateCheck cDecode 0 cEnvDrainErr (.ok ["p0"])
          (⟨[], []⟩ : RegState Nat)).state, [], [], none⟩ :=
  reconcile_idempotent cDecode 0 cEnvDrainErr ["p0"] ⟨[], []⟩ (by decide)

/-- C9: for partitions that disappear from the topology, reconcile cancels,
closes and removes their registry entries (the `removed` component) while
leaving the state store untouched — when no new partition appears, the final
store equals the old one — and a key with a value keeps one under any further
records none of which is a tombstone for it. -/
theorem reconcile_removal_keeps_store {V : Type}
    (decode : List Nat → Except String V) (zero : V) (env : Env)
    (parts : List String) (s : RegState V)
    (hall : ∀ p ∈ parts, p ∈ s.readers) :
    (partitionUpdateCheck decode zero env (.ok parts) s =
      ⟨⟨s.data, s.readers.filter (fun r => decide (r ∈ parts))⟩, [],
       s.readers.filter (fun r => decide (r ∉ parts)), none⟩) ∧
    ∀ (k : String) (msgs : List Msg),
      (∀ m ∈ msgs, m.key = k → m.payload ≠ []) →
      (mapLookup s.data k).isSome = true →
      (mapLookup (msgs.foldl (applyData decode zero)
        (partitionUpdateCheck decode zero env
          (.ok parts) s).state.data) k).isSome = true := by
  have hadd : addLoop decode zero env parts (removeLoop parts s).1 [] =
      ((removeLoop parts s).1, [], none) :=
    addLoop_all_present decode zero env parts _ []
      (fun p hp => by
        simp only [removeLoop]
        exact List.mem_filter.2 ⟨hall p hp, by simp [hp]⟩)
  have hmain : partitionUpdateCheck decode zero env (.ok parts) s =
      ⟨⟨s.data, s.readers.filter (fun r => decide (r ∈ parts))⟩, [],
       s.readers.filter (fun r => decide (r ∉ parts)), none⟩ := by
    rw [partitionUpdateCheck_ok decode zero env parts s, hadd]
    rfl
  refine ⟨hmain, ?_⟩
  intro k msgs hm hd
  rw [hmain]
  exact lookup_isSome_after_no_tombstone decode zero k msgs s.data hm hd

/-- Registry with one key written by partition `p1` and two partitions, used
as a concrete input. -/
def cRegStateXY : RegState Nat := ⟨[("x", 9)], ["p0", "p1"]⟩

/-- Witness for C9 at a concrete input: `p1` disappears from the topology. -/
theorem reconcile_removal_keeps_store_w :
    (partitionUpdateCheck cDecode 0 cEnvDrainErr (.ok ["p0"]) cRegStateXY =
      ⟨⟨[("x", 9)], ["p0"]⟩, [], ["p1"], none⟩) ∧
    (mapLookup (([⟨"x", [4]⟩] : List Msg).foldl (applyData cDecode 0)
      (partitionUpdateCheck cDecode 0 cEnvDrainErr
        (.ok ["p0"]) cRegStateXY).state.data) "x").isSome = true :=
  ⟨((reconcile_removal_keeps_store cDecode 0 cEnvDrainErr ["p0"] cRegStateXY
      (by decide)).1).trans (by decide),
   (reconcile_removal_keeps_store cDecode 0 cEnvDrainErr ["p0"] cRegStateXY
      (by decide)).2 "x" [⟨"x", [4]⟩] (by decide) (by decide)⟩

/-- C6 counterexample: on a live view with one registry entry, the first
`Close` call closes the entry's reader and stops the watcher but leaves the
entry's `cancelInvoked` flag false — the loop at source lines 239–241 only
calls `reader.Close()`, never the entry's `cancelFunc` — refuting the claim
that the first call invokes the cancellation handle of every ReaderEntry. -/
theorem close_skips_cancel_cex :
    CloseCall ⟨false, false, [("p0", ⟨false, false⟩)]⟩ =
      ⟨true, true, [("p0", ⟨false, true⟩)]⟩ ∧
    ¬ ∀ e ∈ (CloseCall ⟨false, false, [("p0", ⟨false, false⟩)]⟩).entries,
        e.2.cancelInvoked = true := by decide

/-- C6 amended: `Close` is idempotent; the first call closes every entry's
reader and stops the topology watcher, but does not invoke the entries'
cancellation handles (each entry's `cancelInvoked` flag is unchanged);
subsequent calls are no-ops. -/
theorem close_idempotent_amended (s : CloseView) :
    CloseCall (CloseCall s) = CloseCall s ∧
    (s.closed = false →
      (CloseCall s).closed = true ∧ (CloseCall s).watcherStopped = true ∧
      (CloseCall s).entries =
        s.entries.map (fun e => (e.1, ⟨e.2.cancelInvoked, true⟩))) := by
  by_cases h : s.closed = true
  · refine ⟨by simp [CloseCall, h], ?_⟩
    intro hc
    rw [h] at hc
    exact Bool.noConfusion hc
  · have h' : s.closed = false := by simpa using h
    exact ⟨by simp [CloseCall, h'], fun _ => by simp [CloseCall, h']⟩

/-- A live view with two registry entries, used as a concrete input. -/
def cCloseView : CloseView :=
  ⟨false, false, [("p0", ⟨false, false⟩), ("p1", ⟨true, false⟩)]⟩

/-- Witness for the amended C6 at a concrete input. -/
theorem close_idempotent_amended_w :
    (CloseCall (CloseCall cCloseView) = CloseCall cCloseView) ∧
    ((CloseCall cCloseView).closed = true ∧
     (CloseCall cCloseView).watcherStopped = true ∧
     (CloseCall cCloseView).entries =
       cCloseView.entries.map (fun e => (e.1, ⟨e.2.cancelInvoked, true⟩))) :=
  ⟨(close_idempotent_amended cCloseView).1,
   (close_idempotent_amended cCloseView).2 rfl⟩

/-- C1 counterexample: the interleaving in which a `handleMessage` for a fresh
record runs between the `ForEach` snapshot (which released `dataMu`) and the
listener registration — possible because `handleMessage` acquires only
`dataMu` and reads `tv.listeners` without `listenersMu` — applies the record
to the store but delivers it to `action` neither in the snapshot nor via
`notify`: the record is dropped across the snapshot boundary, refuting the
claim for records applied concurrently with the call. -/
theorem forEachAndListen_concurrent_drop_cex :
    (runTrace cDecode 0 ⟨[], false, []⟩
      (fealTrace [] [FStep.apply ⟨"a", [1]⟩] [])).delivered = [] ∧
    GetCall (runTrace cDecode 0 ⟨[], false, []⟩
      (fealTrace [] [FStep.apply ⟨"a", [1]⟩] [])).data "a" = some 1 := by decide

/-- C1 amended: when no record is applied concurrently between the snapshot
and the listener registration, `ForEachAndListen(action)` delivers to `action`
exactly the entries present in the store at call time — each exactly once, via
the snapshot — followed by exactly one `notify` event, in order, for each
record applied after the call returned; records applied before the call are
delivered only through the surviving store entries of the snapshot. -/
theorem forEachAndListen_serial_delivery {V : Type}
    (decode : List Nat → Except String V) (zero : V) (d0 : List (String × V))
    (pre post : List FStep) (hpre : applyOnly pre) (hpost : applyOnly post) :
    (runTrace decode zero ⟨d0, false, []⟩ (fealTrace pre [] post)).delivered =
      (runTrace decode zero ⟨d0, false, []⟩ pre).data.map
          (fun p => (p.1, some p.2))
        ++ post.filterMap (stepNotifyEvent decode zero) := by
  have hp := runTrace_pre decode zero pre ⟨d0, false, []⟩ rfl rfl hpre
  rw [fealTrace, List.nil_append, runTrace_append, runTrace_cons, runTrace_cons]
  rw [runTrace_post decode zero post _ rfl hpost]
  simp [stepRun, hp.2]

/-- Witness for the amended C1 at a concrete input: one record before the
call, one after. -/
theorem forEachAndListen_serial_delivery_w :
    (runTrace cDecode 0 ⟨[("a", 1)], false, []⟩
      (fealTrace [FStep.apply ⟨"b", [2]⟩] [] [FStep.apply ⟨"c", [3]⟩])).delivered =
      (runTrace cDecode 0 ⟨[("a", 1)], false, []⟩
        [FStep.apply ⟨"b", [2]⟩]).data.map (fun p => (p.1, some p.2))
        ++ [FStep.apply ⟨"c", [3]⟩].filterMap (stepNotifyEvent cDecode 0) :=
  forEachAndListen_serial_delivery cDecode 0 [("a", 1)]
    [FStep.apply ⟨"b", [2]⟩] [FStep.apply ⟨"c", [3]⟩]
    (by simp [applyOnly, isApply]) (by simp [applyOnly, isApply])

end TableView
